import Mathlib

/-!
Verification of the Balanced Frame Sampling & Split Assignment Engine
(`bird_cv/get_split_guidance.py`, with the interval-widening rule of
`bird_cv/get_label_tables.py`).

The dataframe program is shallowly embedded: each polars operation is
translated to an explicit list computation over row records.  Library
primitives whose pseudorandom draw is irrelevant to the properties under
study (NumPy's seeded permutation, polars' seeded `list.sample`) are
modelled as deterministic functions of their inputs and the seed; the
claims depend only on the draw's size, membership, distinctness and
determinism, never on the actual distribution.
-/

namespace BirdCV

/-! ## Library primitives -/

/-- The function `int_range lo hi` models `pl.int_ranges(lo, hi, 1)`: the integers
`lo, lo+1, ..., hi-1` (empty when `hi ≤ lo`). -/
def int_range (lo hi : ℤ) : List ℤ :=
  (List.range (hi - lo).toNat).map (fun i : ℕ => lo + (i : ℤ))

/-- Duplicate removal (models the key set of a polars `group_by` /
`unique`; polars does not guarantee an output order, so the occurrence
kept is a modelling choice). -/
def dedupList {α : Type} [DecidableEq α] : List α → List α
  | [] => []
  | x :: xs => if x ∈ xs then dedupList xs else x :: dedupList xs

/-- Sequencing of per-row fallible computations over a dataframe: a single
row's failure fails the whole query (polars raises for the whole frame). -/
def optionMapList {α β : Type} (f : α → Option β) : List α → Option (List β)
  | [] => some []
  | x :: xs =>
    match f x, optionMapList f xs with
    | some y, some ys => some (y :: ys)
    | _, _ => none

/-- Models polars `Expr.list.sample(n=n, with_replacement=False, seed=seed)`:
a draw of `n` distinct elements, raising (`none`) when `n` is negative or
exceeds the list length (polars does not clamp or cap).  The pseudorandom
selection itself is abstracted as a seed-determined rotation-and-prefix;
every property proved below depends only on the sample's size, membership,
distinctness and its determinism in `(xs, n, seed)`. -/
def listSample (xs : List ℤ) (n : ℤ) (seed : ℕ) : Option (List ℤ) :=
  if n < 0 ∨ (xs.length : ℤ) < n then none
  else some ((xs.rotate seed).take n.toNat)

/-- Models `np.random.permutation(n)` after `np.random.seed(seed)`: the
Mersenne-Twister shuffle is abstracted as a seed-determined permutation of
`0, ..., n-1`; the claims depend only on it being a permutation that is a
function of `(seed, n)`. -/
def npPermutation (seed n : ℕ) : List ℕ :=
  (List.range n).rotate seed

/-- Python's built-in `round` (banker's rounding, half to even), on exact
rationals; the split ratios are modelled as exact rationals.  The floor
is written as floor division of the numerator by the denominator so that
the function evaluates by kernel reduction. -/
def pyRound (q : ℚ) : ℤ :=
  let f := Int.fdiv q.num (q.den : ℤ)
  let r := q - (f : ℚ)
  if r < 1 / 2 then f
  else if 1 / 2 < r then f + 1
  else if f % 2 = 0 then f else f + 1

/-- Python slice-endpoint normalization for a sequence of length `n`
(negative indices count from the end, everything clamped to `[0, n]`). -/
def pyIdx (n : ℕ) (i : ℤ) : ℕ :=
  if i < 0 then (i + (n : ℤ)).toNat else min i.toNat n

/-- Python slicing `xs[a:b]` with integer endpoints. -/
def pySlice {α : Type} (xs : List α) (a b : ℤ) : List α :=
  (xs.take (pyIdx xs.length b)).drop (pyIdx xs.length a)

/-! ## Data model

Row records for the tables of `get_split_guidance.py` (§6 of the spec):
the video table, the frame/track table, and the intermediate and final
per-video records of the sampling pipeline. -/

/-- A row of `video_data.ndjson`: video-level metadata. -/
structure VideoRow where
  video_id : String
  camera_id : String
  framesCount : ℤ
  duration : ℚ
  video_path : String
deriving DecidableEq

/-- A row of `frame_data.ndjson`: one annotated track, after
`get_label_tables` has widened a point annotation's `frame_end` to the
video's `framesCount`. -/
structure TrackRow where
  video_id : String
  label : String
  frame_begin : ℤ
  frame_end : ℤ
deriving DecidableEq

/-- A track row after `frame_data.join(split_videos, on="video_id")`:
the video's `framesCount` is attached. -/
structure FrameRow where
  video_id : String
  label : String
  frame_begin : ℤ
  frame_end : ℤ
  framesCount : ℤ
deriving DecidableEq

/-- A row of the output of `subsample_frames`: per-video target frames
(possibly holding a polars null from exploding an empty range), the
unpivoted per-label counts, and the video's frame count. -/
structure SampleRow where
  video_id : String
  target_frames : List (Option ℤ)
  counts : List (String × ℤ)
  framesCount : ℤ
deriving DecidableEq

/-- A row of the output of `sample_resting_frames`: the drop at the end
of that function removes the temporaries and `framesCount`, but keeps the
unnested per-label count columns and `added_rests`. -/
structure RestRow where
  video_id : String
  target_frames : List (Option ℤ)
  counts : List (String × ℤ)
  added_rests : ℤ
deriving DecidableEq

/-- A row of a persisted `{split}_lookup.parquet` table, after the final
join with the fps/video-path table. -/
structure LookupRow where
  video_id : String
  target_frames : List (Option ℤ)
  counts : List (String × ℤ)
  added_rests : ℤ
  video_path : String
  fps : ℚ
deriving DecidableEq

/-- The split-ratio configuration `{"train": _, "val": _, "test": _}`,
with the ratios modelled as exact rationals. -/
structure RatioConfig where
  train : ℚ
  val : ℚ
  test : ℚ
deriving DecidableEq

/-! ## Interval Expander (`get_label_tables.py` + `subsample_frames`) -/

/-- The point-annotation widening rule of `get_label_tables`: when
`frame_begin == frame_end`, `frame_end` is replaced by the video's total
frame count. -/
def widenEnd (frame_begin frame_end framesCount : ℤ) : ℤ :=
  if frame_begin = frame_end then framesCount else frame_end

/-- The frame set the Interval Expander generates for one track: the
upstream widening of `frame_end` followed by
`pl.int_ranges(frame_begin, frame_end, 1)` in `subsample_frames`. -/
def expandedTrackFrames (frame_begin frame_end framesCount : ℤ) : List ℤ :=
  int_range frame_begin (widenEnd frame_begin frame_end framesCount)

/-- The row-wise range of `subsample_frames` (its input table already has
the widened `frame_end`). -/
def rowRange (t : FrameRow) : List ℤ :=
  int_range t.frame_begin t.frame_end

/-- Models `df.explode("range")`: a polars explode of an empty list produces a
single null row; a non-empty list produces one row per element. -/
def explodeRange (xs : List ℤ) : List (Option ℤ) :=
  if xs.isEmpty then [none] else xs.map some

/-- Models `frame_data.filter(pl.col("label") != "Resting")`. -/
def nonResting (rows : List FrameRow) : List FrameRow :=
  rows.filter (fun t => t.label ≠ "Resting")

/-- The exploded `(label, range)` rows belonging to one video: the basis
of both `target_frames` and `label_counts` in `subsample_frames`. -/
def explodedFor (rows : List FrameRow) (v : String) : List (String × Option ℤ) :=
  ((nonResting rows).filter (fun t => t.video_id = v)).flatMap
    (fun t => (explodeRange (rowRange t)).map (fun x => (t.label, x)))

/-- Ordering used to model `pl.col("range").unique().sort()` on a column
that may hold nulls (polars sorts nulls first). -/
def optLe : Option ℤ → Option ℤ → Prop
  | none, _ => True
  | some _, none => False
  | some a, some b => a ≤ b

instance : DecidableRel optLe := fun a b => by
  cases a <;> cases b <;> simp [optLe] <;> infer_instance

/-- Models `pl.col("range").unique().sort()` grouped by video: the sorted,
duplicate-free union of the video's exploded ranges. -/
def targetFramesFor (rows : List FrameRow) (v : String) : List (Option ℤ) :=
  List.insertionSort optLe (dedupList ((explodedFor rows v).map Prod.snd))

/-- The `label_counts` entry of one `(video, label)` pair: the length of
the exploded, not-deduplicated frame list for that pair. -/
def labelCountFor (rows : List FrameRow) (v l : String) : ℕ :=
  ((explodedFor rows v).filter (fun p => p.1 = l)).length

/-- Models `df["label"].unique()`: the struct fields of `label_counts` (one per
non-resting label present in the whole frame table). -/
def allLabels (rows : List FrameRow) : List String :=
  dedupList ((nonResting rows).map (fun t => t.label))

/-- The `group_by("video_id")` keys of the exploded frame table. -/
def videoList (rows : List FrameRow) : List String :=
  dedupList ((nonResting rows).map (fun t => t.video_id))

/-- The `framesCount` attached back by the final left join of
`subsample_frames` (video ids are unique keys upstream, so the first
matching row determines it). -/
def framesCountFor (rows : List FrameRow) (v : String) : ℤ :=
  match ((nonResting rows).filter (fun t => t.video_id = v)).head? with
  | some t => t.framesCount
  | none => 0

/-- Models `subsample_frames`: per video, the sorted duplicate-free target
frames, the per-label counts (`fill_null(0)` over the global label set),
and the video's frame count.  When the filtered non-resting frame table
has no rows, `df["label"].unique()` is empty and
`pl.struct([c for c in ...])` raises (`pl.struct` requires at least one
field), so the function fails rather than returning an empty table. -/
def subsample_frames (rows : List FrameRow) : Option (List SampleRow) :=
  if nonResting rows = [] then none
  else some ((videoList rows).map (fun v =>
    { video_id := v
    , target_frames := targetFramesFor rows v
    , counts := (allLabels rows).map (fun l => (l, (labelCountFor rows v l : ℤ)))
    , framesCount := framesCountFor rows v }))

/-! ## Resting Backfill Sampler (`sample_resting_frames`) -/

/-- Models a `pl.struct` field lookup with `fill_null(0)`. -/
def lookupCount (counts : List (String × ℤ)) (l : String) : ℤ :=
  match counts.find? (fun p => p.1 = l) with
  | some p => p.2
  | none => 0

/-- Models `pl.sum_horizontal(label_names)`: `already_used`, the sum of all
label counts of the row. -/
def sumHoriz (labels : List String) (counts : List (String × ℤ)) : ℤ :=
  (labels.map (lookupCount counts)).sum

/-- Models `pl.max_horizontal(label_names)`: `max_count`, the maximum label
count of the row. -/
def maxHoriz (labels : List String) (counts : List (String × ℤ)) : ℤ :=
  match labels.map (lookupCount counts) with
  | [] => 0
  | x :: xs => xs.foldl max x

/-- Models `candidate_frames`: `pl.int_ranges(1, framesCount + 1)` minus the
already-selected target frames (`list.set_difference`, which keeps the
left-hand elements not present on the right; `all_frames` is
duplicate-free, so this is a filter). -/
def candidateFrames (row : SampleRow) : List ℤ :=
  (int_range 1 (row.framesCount + 1)).filter (fun x => ¬ (some x ∈ row.target_frames))

/-- The `n=` argument of the branch of `pl.when(...)` that is selected
for the row: `framesCount - already_used` when
`max_count > framesCount - already_used`, else `max_count`. -/
def backfillQuota (labels : List String) (row : SampleRow) : ℤ :=
  if row.framesCount - sumHoriz labels row.counts < maxHoriz labels row.counts then
    row.framesCount - sumHoriz labels row.counts
  else
    maxHoriz labels row.counts

/-- One row of `sample_resting_frames`.  polars evaluates both the
`then` and the `otherwise` branch of `pl.when` over every row before
masking, so the row fails (raising for the whole query) as soon as either
branch's `list.sample` request is infeasible.  On success the sampled
frames are concatenated to `target_frames`, and the temporaries dropped
at the end of the function leave `video_id`, `target_frames`, the
unnested label counts and `added_rests`. -/
def sample_resting_row (labels : List String) (row : SampleRow) (seed : ℕ) : Option RestRow :=
  let m := maxHoriz labels row.counts
  let s := sumHoriz labels row.counts
  let cand := candidateFrames row
  match listSample cand (row.framesCount - s) seed, listSample cand m seed with
  | some tBr, some oBr =>
    some { video_id := row.video_id
         , target_frames :=
             row.target_frames ++ ((if row.framesCount - s < m then tBr else oBr).map some)
         , counts := row.counts
         , added_rests := if row.framesCount - s < m then row.framesCount - s else m }
  | _, _ => none

/-- Models `sample_resting_frames` over the whole frame-target table.
With an empty label set (`schema["label_counts"].fields` empty),
`pl.max_horizontal([])` / `pl.sum_horizontal([])` raise, so the function
fails before any row is processed. -/
def sample_resting_frames (labels : List String) (df : List SampleRow) (seed : ℕ) :
    Option (List RestRow) :=
  if labels = [] then none
  else optionMapList (fun r => sample_resting_row labels r seed) df

/-! ## Camera Split Partitioner (`split_camera_data`, lines 41-50) -/

/-- Models `video_data.select("camera_id").unique()`: the distinct cameras. -/
def distinctCameras (videos : List VideoRow) : List String :=
  dedupList (videos.map (fun v => v.camera_id))

/-- The camera groups of `split_camera_data`: a seeded permutation of the
camera indices is cut by `np.split(indices, [n_train, n_train + n_val])`
with `n_train = round(ratio.train * n)` and `n_val = round(ratio.val * n)`
(Python `round`, half to even), and each index slice selects its cameras. -/
def cameraPartition (videos : List VideoRow) (ratio : RatioConfig) (seed : ℕ) :
    List String × List String × List String :=
  let cams := distinctCameras videos
  let n := cams.length
  let perm := npPermutation seed n
  let nTrain := pyRound (ratio.train * n)
  let nVal := pyRound (ratio.val * n)
  let pick := fun (idx : List ℕ) => idx.filterMap (fun i => cams[i]?)
  ( pick (pySlice perm 0 nTrain)
  , pick (pySlice perm nTrain (nTrain + nVal))
  , pick (pySlice perm (nTrain + nVal) n) )

/-! ## Split Guidance Builder (`split_camera_data`, lines 52-73) -/

/-- The videos whose camera belongs to the split. -/
def splitVideos (videos : List VideoRow) (cams : List String) : List VideoRow :=
  videos.filter (fun v => v.camera_id ∈ cams)

/-- Models `frame_data.join(split_videos, on="video_id", how="inner")`: track
rows of videos present in the split, with the video's `framesCount`
attached (video ids are unique keys, so the first match determines the
joined row). -/
def joinFrames (tracks : List TrackRow) (split_videos : List VideoRow) : List FrameRow :=
  tracks.filterMap (fun t =>
    (split_videos.find? (fun v => v.video_id = t.video_id)).map (fun v =>
      { video_id := t.video_id
      , label := t.label
      , frame_begin := t.frame_begin
      , frame_end := t.frame_end
      , framesCount := v.framesCount }))

/-- The final inner join of the orchestrator: attach `video_path` and
`fps = framesCount / duration` of the matching split video. -/
def attachVideo (split_videos : List VideoRow) (r : RestRow) : Option LookupRow :=
  (split_videos.find? (fun v => v.video_id = r.video_id)).map (fun v =>
    { video_id := r.video_id
    , target_frames := r.target_frames
    , counts := r.counts
    , added_rests := r.added_rests
    , video_path := v.video_path
    , fps := (v.framesCount : ℚ) / v.duration })

/-- The per-split body of the orchestrator loop: filter videos by camera,
join tracks, run `subsample_frames` then `sample_resting_frames` (either
may raise — in particular both do on a split with no non-resting track
rows), and join back `video_path` and `fps`. -/
def process_split (videos : List VideoRow) (tracks : List TrackRow) (cams : List String)
    (seed : ℕ) : Option (List LookupRow) :=
  match subsample_frames (joinFrames tracks (splitVideos videos cams)) with
  | none => none
  | some sub =>
    match sample_resting_frames (allLabels (joinFrames tracks (splitVideos videos cams)))
        sub seed with
    | none => none
    | some rest => some (rest.filterMap (attachVideo (splitVideos videos cams)))

/-- Models `split_camera_data`: the whole engine, as a function of the input
tables, the ratio configuration and the seed.  Only the train and val
splits are materialized; a failure in either split fails the run. -/
def split_camera_data (videos : List VideoRow) (tracks : List TrackRow)
    (ratio : RatioConfig) (seed : ℕ) : Option (List (String × List LookupRow)) :=
  match process_split videos tracks (cameraPartition videos ratio seed).1 seed,
        process_split videos tracks (cameraPartition videos ratio seed).2.1 seed with
  | some t, some v => some [("train", t), ("val", v)]
  | _, _ => none

/-! ## Column-schema model (for the output-column claim)

Effect of each dataframe operation of the pipeline on the list of column
names, mirroring polars semantics: `unnest` splices the struct's fields
in place, `with_columns` replaces an existing column in place or appends
a new one, `drop` removes, and an inner join appends the right-hand
columns minus the key. -/

def unnestCols (cols : List String) (c : String) (fields : List String) : List String :=
  cols.flatMap (fun x => if x = c then fields else [x])

def withColumnCols (cols : List String) (name : String) : List String :=
  if name ∈ cols then cols else cols ++ [name]

def dropCols (cols : List String) (names : List String) : List String :=
  cols.filter (fun c => ¬ c ∈ names)

def joinColsInner (left right : List String) (key : String) : List String :=
  left ++ right.filter (fun c => c ≠ key)

/-- Columns of the output of `subsample_frames`: the target-frame and
label-count aggregations joined on `video_id`, then the left join that
brings back `framesCount`. -/
def subsampleOutCols : List String :=
  joinColsInner
    (joinColsInner ["video_id", "target_frames"] ["video_id", "label_counts"] "video_id")
    ["video_id", "framesCount"] "video_id"

/-- Columns of the output of `sample_resting_frames`: unnest
`label_counts`, add the temporaries (`max_count`, `all_frames`,
`candidate_frames`, then `sampled_additional_frames` and `added_rests`),
and drop exactly the names listed in the final `.drop(...)` call. -/
def sampleRestingOutCols (labels : List String) : List String :=
  dropCols
    (withColumnCols
      (withColumnCols
        (withColumnCols
          (withColumnCols
            (withColumnCols (unnestCols subsampleOutCols "label_counts" labels)
              "max_count")
            "all_frames")
          "candidate_frames")
        "sampled_additional_frames")
      "added_rests")
    ["max_count", "all_frames", "candidate_frames", "sampled_additional_frames",
     "framesCount"]

/-- Columns of a persisted `{split}_lookup.parquet` table: the columns of
`sample_resting_frames` joined with
`videos.select("video_id", "video_path", "fps")` on `video_id`. -/
def lookupCols (labels : List String) : List String :=
  joinColsInner (sampleRestingOutCols labels) ["video_id", "video_path", "fps"] "video_id"

/-! ## Helper lemmas about the library primitives -/

theorem mem_int_range {lo hi x : ℤ} : x ∈ int_range lo hi ↔ lo ≤ x ∧ x < hi := by
  unfold int_range
  rw [List.mem_map]
  constructor
  · rintro ⟨i, hmem, rfl⟩
    rw [List.mem_range] at hmem
    omega
  · intro h
    refine ⟨(x - lo).toNat, ?_, ?_⟩
    · rw [List.mem_range]; omega
    · omega

theorem nodup_int_range (lo hi : ℤ) : (int_range lo hi).Nodup := by
  unfold int_range
  refine List.Nodup.map ?_ (List.nodup_range _)
  intro a b h
  have h' : lo + (a : ℤ) = lo + (b : ℤ) := h
  omega

theorem length_int_range (lo hi : ℤ) : (int_range lo hi).length = (hi - lo).toNat := by
  unfold int_range
  rw [List.length_map, List.length_range]

theorem mem_dedupList {α : Type} [DecidableEq α] {x : α} :
    ∀ {l : List α}, x ∈ dedupList l ↔ x ∈ l
  | [] => by simp [dedupList]
  | y :: ys => by
    by_cases h : y ∈ ys
    · simp only [dedupList, if_pos h, List.mem_cons, mem_dedupList (l := ys)]
      constructor
      · exact Or.inr
      · rintro (rfl | hx)
        · exact h
        · exact hx
    · simp [dedupList, if_neg h, mem_dedupList (l := ys)]

theorem nodup_dedupList {α : Type} [DecidableEq α] : ∀ (l : List α), (dedupList l).Nodup
  | [] => by simp [dedupList]
  | y :: ys => by
    by_cases h : y ∈ ys
    · simpa [dedupList, if_pos h] using nodup_dedupList ys
    · simp only [dedupList, if_neg h, List.nodup_cons]
      exact ⟨fun hy => h (mem_dedupList.mp hy), nodup_dedupList ys⟩

theorem optionMapList_mem {α β : Type} {f : α → Option β} :
    ∀ {xs : List α} {ys : List β}, optionMapList f xs = some ys →
      ∀ y ∈ ys, ∃ x ∈ xs, f x = some y := by
  intro xs
  induction xs with
  | nil => intro ys h y hy; simp [optionMapList] at h; subst h; simp at hy
  | cons a as ih =>
    intro ys h y hy
    simp only [optionMapList] at h
    cases ha : f a with
    | none => rw [ha] at h; simp at h
    | some b =>
      rw [ha] at h
      cases hrest : optionMapList f as with
      | none => rw [hrest] at h; simp at h
      | some bs =>
        rw [hrest] at h
        simp only [Option.some.injEq] at h
        subst h
        rcases List.mem_cons.mp hy with rfl | hy'
        · exact ⟨a, List.mem_cons_self a as, ha⟩
        · obtain ⟨x, hx, hfx⟩ := ih hrest y hy'
          exact ⟨x, List.mem_cons_of_mem a hx, hfx⟩

theorem optionMapList_getElem {α β : Type} {f : α → Option β} :
    ∀ {xs : List α} {ys : List β} {i : ℕ} {x : α} {y : β},
      optionMapList f xs = some ys → xs[i]? = some x → ys[i]? = some y →
      f x = some y := by
  intro xs
  induction xs with
  | nil => intro ys i x y h hx hy; simp at hx
  | cons a as ih =>
    intro ys i x y h hx hy
    simp only [optionMapList] at h
    cases ha : f a with
    | none => rw [ha] at h; simp at h
    | some b =>
      rw [ha] at h
      cases hrest : optionMapList f as with
      | none => rw [hrest] at h; simp at h
      | some bs =>
        rw [hrest] at h
        simp only [Option.some.injEq] at h
        subst h
        cases i with
        | zero =>
          simp only [List.getElem?_cons_zero, Option.some.injEq] at hx hy
          subst hx; subst hy
          exact ha
        | succ n =>
          simp only [List.getElem?_cons_succ] at hx hy
          exact ih hrest hx hy

theorem listSample_eq_none_iff {xs : List ℤ} {n : ℤ} {seed : ℕ} :
    listSample xs n seed = none ↔ (n < 0 ∨ (xs.length : ℤ) < n) := by
  unfold listSample
  by_cases h : n < 0 ∨ (xs.length : ℤ) < n
  · simp [h]
  · simp [h]

theorem listSample_spec {xs : List ℤ} {n : ℤ} {seed : ℕ} {ys : List ℤ}
    (h : listSample xs n seed = some ys) :
    0 ≤ n ∧ n ≤ (xs.length : ℤ) ∧ (ys.length : ℤ) = n ∧
      (∀ y ∈ ys, y ∈ xs) ∧ (xs.Nodup → ys.Nodup) := by
  unfold listSample at h
  by_cases hc : n < 0 ∨ (xs.length : ℤ) < n
  · simp [hc] at h
  · simp only [hc, if_false, Option.some.injEq] at h
    subst h
    push_neg at hc
    refine ⟨by omega, by omega, ?_, ?_, ?_⟩
    · rw [List.length_take, List.length_rotate]
      omega
    · intro y hy
      have h1 : y ∈ xs.rotate seed := List.mem_of_mem_take hy
      exact (List.mem_rotate).mp h1
    · intro hnd
      have hrot : (xs.rotate seed).Nodup :=
        ((List.rotate_perm xs seed).nodup_iff).mpr hnd
      exact (List.take_sublist _ _).nodup hrot

theorem npPermutation_perm (seed n : ℕ) : List.Perm (npPermutation seed n) (List.range n) :=
  List.rotate_perm _ _

theorem npPermutation_length (seed n : ℕ) : (npPermutation seed n).length = n := by
  simp [npPermutation]

/-! ## Helper lemmas about the Resting Backfill Sampler -/

/-- A successful backfill row consists of the original target frames
followed by a draw of `backfillQuota` frames from the complement. -/
theorem sample_resting_row_spec {L : List String} {row : SampleRow} {seed : ℕ} {out : RestRow}
    (h : sample_resting_row L row seed = some out) :
    ∃ smp, listSample (candidateFrames row) (backfillQuota L row) seed = some smp ∧
      out = { video_id := row.video_id
            , target_frames := row.target_frames ++ smp.map some
            , counts := row.counts
            , added_rests := backfillQuota L row } := by
  simp only [sample_resting_row] at h
  cases h1 : listSample (candidateFrames row) (row.framesCount - sumHoriz L row.counts) seed with
  | none => rw [h1] at h; simp at h
  | some tBr =>
    cases h2 : listSample (candidateFrames row) (maxHoriz L row.counts) seed with
    | none => rw [h1, h2] at h; simp at h
    | some oBr =>
      rw [h1, h2] at h
      simp only [Option.some.injEq] at h
      subst h
      unfold backfillQuota
      by_cases hc : row.framesCount - sumHoriz L row.counts < maxHoriz L row.counts
      · exact ⟨tBr, by rw [if_pos hc]; exact h1, by simp [hc]⟩
      · exact ⟨oBr, by rw [if_neg hc]; exact h2, by simp [hc]⟩

/-- A backfill row fails exactly when one of the two branch draws is
infeasible. -/
theorem sample_resting_row_eq_none_iff {L : List String} {row : SampleRow} {seed : ℕ} :
    sample_resting_row L row seed = none ↔
      (listSample (candidateFrames row) (row.framesCount - sumHoriz L row.counts) seed = none ∨
       listSample (candidateFrames row) (maxHoriz L row.counts) seed = none) := by
  simp only [sample_resting_row]
  cases h1 : listSample (candidateFrames row) (row.framesCount - sumHoriz L row.counts) seed with
  | none => simp
  | some tBr =>
    cases h2 : listSample (candidateFrames row) (maxHoriz L row.counts) seed with
    | none => simp
    | some oBr => simp

/-! ## The claims -/

/-- C1: for every video row on which the backfill succeeds, the number of
additional frames sampled is `frame_count - already_used` when
`max_count > frame_count - already_used`, and `max_count` otherwise
(`already_used` being the sum, and `max_count` the maximum, of the row's
label counts). -/
theorem c1_backfill_quota (L : List String) (row : SampleRow) (seed : ℕ) (out : RestRow)
    (h : sample_resting_row L row seed = some out) :
    (out.target_frames.length : ℤ) =
      row.target_frames.length +
        (if row.framesCount - sumHoriz L row.counts < maxHoriz L row.counts
         then row.framesCount - sumHoriz L row.counts
         else maxHoriz L row.counts) := by
  obtain ⟨smp, hs, rfl⟩ := sample_resting_row_spec h
  obtain ⟨h0, hle, hlen, -, -⟩ := listSample_spec hs
  have hq : (if row.framesCount - sumHoriz L row.counts < maxHoriz L row.counts
             then row.framesCount - sumHoriz L row.counts
             else maxHoriz L row.counts) = backfillQuota L row := rfl
  rw [hq]
  simp only [List.length_append, List.length_map]
  push_cast
  omega

/-- C1 witness: a concrete successful row (frame count 5, target frames
`{1,2}`, label counts `{A: 2}`), where the else branch samples
`max_count = 2` frames. -/
theorem c1_backfill_quota_witness :
    ((RestRow.mk "v" [some 1, some 2, some 3, some 4] [("A", 2)] 2).target_frames.length : ℤ) =
      ((SampleRow.mk "v" [some 1, some 2] [("A", 2)] 5).target_frames.length : ℕ) +
        (if (SampleRow.mk "v" [some 1, some 2] [("A", 2)] 5).framesCount -
              sumHoriz ["A"] (SampleRow.mk "v" [some 1, some 2] [("A", 2)] 5).counts <
              maxHoriz ["A"] (SampleRow.mk "v" [some 1, some 2] [("A", 2)] 5).counts
         then (SampleRow.mk "v" [some 1, some 2] [("A", 2)] 5).framesCount -
              sumHoriz ["A"] (SampleRow.mk "v" [some 1, some 2] [("A", 2)] 5).counts
         else maxHoriz ["A"] (SampleRow.mk "v" [some 1, some 2] [("A", 2)] 5).counts) :=
  c1_backfill_quota ["A"] (SampleRow.mk "v" [some 1, some 2] [("A", 2)] 5) 42
    (RestRow.mk "v" [some 1, some 2, some 3, some 4] [("A", 2)] 2) (by decide)

/-- C2 counterexample: a row with frame count 3, target frames `{1,2}`
and label counts `{A: 4}` (overlap double-counting), where
`frame_count - already_used = -1 < 0`.  The claim says the quota is
clamped to 0 and the FrameTargetSet is returned unmodified; the code
instead passes the negative size to `list.sample` and the query fails. -/
theorem c2_clamping_counterexample :
    sample_resting_row ["A"] (SampleRow.mk "v" [some 1, some 2] [("A", 4)] 3) 42 = none := by
  decide

/-- C2 (amended): the sampler does not clamp or cap.  A row fails exactly
when `frame_count - already_used` is negative or exceeds the complement
size, or `max_count` is negative or exceeds the complement size (both
`when`-branches are evaluated for every row); in particular for
`frame_count - already_used < 0` the query raises instead of returning
the row unmodified.  Only when `frame_count - already_used = 0` (and the
always-evaluated `max_count` draw is feasible) is the quota 0 and the
FrameTargetSet returned unmodified. -/
theorem c2_degenerate_sizes (L : List String) (row : SampleRow) (seed : ℕ) :
    (sample_resting_row L row seed = none ↔
      (row.framesCount - sumHoriz L row.counts < 0 ∨
       maxHoriz L row.counts < 0 ∨
       ((candidateFrames row).length : ℤ) < row.framesCount - sumHoriz L row.counts ∨
       ((candidateFrames row).length : ℤ) < maxHoriz L row.counts)) ∧
    (0 ≤ maxHoriz L row.counts →
     maxHoriz L row.counts ≤ ((candidateFrames row).length : ℤ) →
     row.framesCount - sumHoriz L row.counts = 0 →
     sample_resting_row L row seed =
       some { video_id := row.video_id
            , target_frames := row.target_frames
            , counts := row.counts
            , added_rests := 0 }) := by
  constructor
  · rw [sample_resting_row_eq_none_iff, listSample_eq_none_iff, listSample_eq_none_iff]
    constructor
    · rintro (h | h) <;> tauto
    · rintro (h | h | h | h) <;> tauto
  · intro hm hmle hz
    cases hres : sample_resting_row L row seed with
    | none =>
      rw [sample_resting_row_eq_none_iff, listSample_eq_none_iff, listSample_eq_none_iff] at hres
      omega
    | some out =>
      obtain ⟨smp, hs, rfl⟩ := sample_resting_row_spec hres
      have hq : backfillQuota L row = 0 := by
        unfold backfillQuota
        by_cases hc : row.framesCount - sumHoriz L row.counts < maxHoriz L row.counts
        · rw [if_pos hc]; omega
        · rw [if_neg hc]; omega
      obtain ⟨-, -, hlen, -, -⟩ := listSample_spec hs
      rw [hq] at hlen
      have hsmp : smp = [] := List.length_eq_zero.mp (by exact_mod_cast hlen)
      subst hsmp
      simp [hq]

/-- C2 witness (for the amended claim): a row with
`frame_count - already_used = 0` and a feasible `max_count` draw is
returned unmodified with 0 added resting frames. -/
theorem c2_degenerate_sizes_witness :
    sample_resting_row ["A", "B"] (SampleRow.mk "v" [some 1] [("A", 1), ("B", 1)] 2) 9 =
      some { video_id := "v"
           , target_frames := [some 1]
           , counts := [("A", 1), ("B", 1)]
           , added_rests := 0 } :=
  (c2_degenerate_sizes ["A", "B"] (SampleRow.mk "v" [some 1] [("A", 1), ("B", 1)] 2) 9).2
    (by decide) (by decide) (by decide)

/-- C3: the frame set the Interval Expander generates for a track is
exactly `{frame_begin, ..., frame_end - 1}` when
`frame_begin ≠ frame_end`, and exactly `{frame_begin, ..., frame_count - 1}`
when `frame_begin = frame_end` (the point-annotation widening rule). -/
theorem c3_interval_expansion (b e fc x : ℤ) :
    (b ≠ e → (x ∈ expandedTrackFrames b e fc ↔ b ≤ x ∧ x ≤ e - 1)) ∧
    (b = e → (x ∈ expandedTrackFrames b e fc ↔ b ≤ x ∧ x ≤ fc - 1)) := by
  unfold expandedTrackFrames widenEnd
  constructor
  · intro h
    rw [if_neg h, mem_int_range]
    omega
  · intro h
    rw [if_pos h, mem_int_range]
    omega

/-- C3 witness: the track `[1, 3)` with frame count 10 contains frame 2
and is bounded by `frame_end - 1 = 2`. -/
theorem c3_interval_expansion_witness :
    (1 : ℤ) ≠ 3 ∧ ((2 : ℤ) ∈ expandedTrackFrames 1 3 10 ↔ (1 : ℤ) ≤ 2 ∧ (2 : ℤ) ≤ 3 - 1) :=
  ⟨by decide, (c3_interval_expansion 1 3 10 2).1 (by decide)⟩

/-- C5: every frame appended by a successful backfill row is a `some`
frame index in `{1, ..., frame_count}` that is absent from the
pre-backfill target frames, and when the pre-backfill target frames are
duplicate-free (as `subsample_frames` produces them) the final
target-frame list has no duplicates. -/
theorem c5_no_duplicates (L : List String) (row : SampleRow) (seed : ℕ) (out : RestRow)
    (hnd : row.target_frames.Nodup)
    (h : sample_resting_row L row seed = some out) :
    (∀ x ∈ out.target_frames.drop row.target_frames.length,
       ∃ y : ℤ, x = some y ∧ 1 ≤ y ∧ y ≤ row.framesCount ∧ some y ∉ row.target_frames) ∧
    out.target_frames.Nodup := by
  obtain ⟨smp, hs, rfl⟩ := sample_resting_row_spec h
  obtain ⟨-, -, -, hmem, hnds⟩ := listSample_spec hs
  have hprop : ∀ y ∈ smp, 1 ≤ y ∧ y ≤ row.framesCount ∧ some y ∉ row.target_frames := by
    intro y hy
    have hc := hmem y hy
    unfold candidateFrames at hc
    rw [List.mem_filter] at hc
    obtain ⟨hin, hnotin⟩ := hc
    rw [mem_int_range] at hin
    refine ⟨by omega, by omega, ?_⟩
    simpa using hnotin
  constructor
  · show ∀ x ∈ (row.target_frames ++ smp.map some).drop row.target_frames.length, _
    rw [List.drop_left]
    intro x hx
    obtain ⟨y, hy, rfl⟩ := List.mem_map.mp hx
    obtain ⟨h1, h2, h3⟩ := hprop y hy
    exact ⟨y, rfl, h1, h2, h3⟩
  · show (row.target_frames ++ smp.map some).Nodup
    rw [List.nodup_append]
    refine ⟨hnd, ?_, ?_⟩
    · exact List.Nodup.map (Option.some_injective ℤ)
        (hnds ((nodup_int_range _ _).filter _))
    · intro a ha hb
      obtain ⟨y, hy, hsome⟩ := List.mem_map.mp hb
      rw [← hsome] at ha
      exact (hprop y hy).2.2 ha

/-- C5 witness: the concrete row of frame count 5 with pre-backfill
target frames `{1,2}`; both sampled frames land in `{3,4,5}` and the
final list is duplicate-free. -/
theorem c5_no_duplicates_witness :
    (∀ x ∈ (RestRow.mk "v" [some 1, some 2, some 3, some 4] [("A", 2)] 2).target_frames.drop
        (SampleRow.mk "v" [some 1, some 2] [("A", 2)] 5).target_frames.length,
       ∃ y : ℤ, x = some y ∧ 1 ≤ y ∧
         y ≤ (SampleRow.mk "v" [some 1, some 2] [("A", 2)] 5).framesCount ∧
         some y ∉ (SampleRow.mk "v" [some 1, some 2] [("A", 2)] 5).target_frames) ∧
    (RestRow.mk "v" [some 1, some 2, some 3, some 4] [("A", 2)] 2).target_frames.Nodup :=
  c5_no_duplicates ["A"] (SampleRow.mk "v" [some 1, some 2] [("A", 2)] 5) 42
    (RestRow.mk "v" [some 1, some 2, some 3, some 4] [("A", 2)] 2) (by decide) (by decide)

/-- C10: the frames a row receives from the backfill are a function of
its complement list, its branch quota and the seed alone: rows at any
positions of any two sampled tables (any label sets, any surrounding
rows, any processing order) with equal complement and equal quota receive
equal samples, because each `list.sample` call is seeded per row with the
run seed. -/
theorem c10_per_row_seeding (L1 L2 : List String) (df1 df2 : List SampleRow) (seed : ℕ)
    (o1 o2 : List RestRow) (i j : ℕ) (r1 r2 : SampleRow) (s1 s2 : RestRow)
    (h1 : sample_resting_frames L1 df1 seed = some o1)
    (h2 : sample_resting_frames L2 df2 seed = some o2)
    (hr1 : df1[i]? = some r1) (ho1 : o1[i]? = some s1)
    (hr2 : df2[j]? = some r2) (ho2 : o2[j]? = some s2)
    (hc : candidateFrames r1 = candidateFrames r2)
    (hq : backfillQuota L1 r1 = backfillQuota L2 r2) :
    s1.target_frames.drop r1.target_frames.length =
      s2.target_frames.drop r2.target_frames.length := by
  unfold sample_resting_frames at h1 h2
  split at h1
  · exact absurd h1 (by simp)
  split at h2
  · exact absurd h2 (by simp)
  have e1 := optionMapList_getElem h1 hr1 ho1
  have e2 := optionMapList_getElem h2 hr2 ho2
  obtain ⟨smp1, hs1, rfl⟩ := sample_resting_row_spec e1
  obtain ⟨smp2, hs2, rfl⟩ := sample_resting_row_spec e2
  rw [hc, hq] at hs1
  rw [hs1] at hs2
  injection hs2 with hsmp
  show (r1.target_frames ++ smp1.map some).drop r1.target_frames.length =
    (r2.target_frames ++ smp2.map some).drop r2.target_frames.length
  rw [List.drop_left, List.drop_left, hsmp]

/-- C10 witness: two rows with equal complement `{3,4,5}` and equal quota
2, sitting at different positions of different tables with different
video ids and label sets, receive the same sampled frames. -/
theorem c10_per_row_seeding_witness :
    (RestRow.mk "v1" [some 1, some 2, some 3, some 4] [("A", 2)] 2).target_frames.drop
        (SampleRow.mk "v1" [some 1, some 2] [("A", 2)] 5).target_frames.length =
      (RestRow.mk "v2" [some 1, some 2, some 3, some 4] [("B", 2)] 2).target_frames.drop
        (SampleRow.mk "v2" [some 1, some 2] [("B", 2)] 5).target_frames.length :=
  c10_per_row_seeding ["A"] ["B"]
    [SampleRow.mk "v1" [some 1, some 2] [("A", 2)] 5]
    [SampleRow.mk "w" [some 1] [("B", 1)] 3, SampleRow.mk "v2" [some 1, some 2] [("B", 2)] 5]
    42
    [RestRow.mk "v1" [some 1, some 2, some 3, some 4] [("A", 2)] 2]
    [RestRow.mk "w" [some 1, some 2] [("B", 1)] 1,
     RestRow.mk "v2" [some 1, some 2, some 3, some 4] [("B", 2)] 2]
    0 1
    (SampleRow.mk "v1" [some 1, some 2] [("A", 2)] 5)
    (SampleRow.mk "v2" [some 1, some 2] [("B", 2)] 5)
    (RestRow.mk "v1" [some 1, some 2, some 3, some 4] [("A", 2)] 2)
    (RestRow.mk "v2" [some 1, some 2, some 3, some 4] [("B", 2)] 2)
    (by decide) (by decide) (by decide) (by decide) (by decide) (by decide)
    (by decide) (by decide)

/-! ## Label-count lemmas (Interval Expander counting) -/

theorem length_explodeRange (xs : List ℤ) : (explodeRange xs).length = max 1 xs.length := by
  unfold explodeRange
  by_cases h : xs.isEmpty
  · rw [if_pos h]
    rw [List.isEmpty_iff] at h
    subst h
    rfl
  · rw [if_neg h, List.length_map]
    rw [List.isEmpty_iff] at h
    have : 0 < xs.length := List.length_pos.mpr h
    omega

theorem filter_label_flatMap (l : String) (ts : List FrameRow) :
    ((ts.flatMap (fun t => (explodeRange (rowRange t)).map (fun x => (t.label, x)))).filter
        (fun p => p.1 = l)).length =
      (ts.map (fun t => if t.label = l then max 1 (rowRange t).length else 0)).sum := by
  induction ts with
  | nil => simp
  | cons a ts ih =>
    rw [List.flatMap_cons, List.filter_append, List.length_append, ih,
      List.map_cons, List.sum_cons]
    congr 1
    by_cases h : a.label = l
    · rw [if_pos h, List.filter_map]
      have hp : ((fun p : String × Option ℤ => decide (p.1 = l)) ∘ fun x => (a.label, x)) =
          fun _ => true := by
        funext x
        simp [h]
      rw [hp, List.filter_true, List.length_map, length_explodeRange]
    · rw [if_neg h, List.filter_map]
      have hp : ((fun p : String × Option ℤ => decide (p.1 = l)) ∘ fun x => (a.label, x)) =
          fun _ => false := by
        funext x
        simp [h]
      rw [hp, List.filter_false]
      rfl

theorem sum_if_filter {α : Type} (P Q : α → Prop) [DecidablePred P] [DecidablePred Q]
    (g : α → ℕ) (ts : List α) :
    ((ts.filter (fun t => decide (P t))).map (fun t => if Q t then g t else 0)).sum =
      ((ts.filter (fun t => decide (P t ∧ Q t))).map g).sum := by
  induction ts with
  | nil => simp
  | cons a ts ih =>
    by_cases hP : P a <;> by_cases hQ : Q a <;>
      simp [List.filter_cons, hP, hQ, ih]

/-- C6 counterexample: the track `(video v, label A, frame_begin 5,
frame_end 5, frame_count 5)` — the widened form of a point annotation on
the last frame — expands to the empty range, which polars explodes to
one null row; the code counts 1 for label A while the sum of expanded
interval lengths is 0. -/
theorem c6_label_counts_counterexample :
    labelCountFor [FrameRow.mk "v" "A" 5 5 5] "v" "A" ≠
      ((([FrameRow.mk "v" "A" 5 5 5] : List FrameRow).filter
          (fun t => t.video_id = "v" ∧ t.label = "A")).map
        (fun t => (rowRange t).length)).sum := by
  decide

/-- C6 (amended): for every video and every non-"Resting" label, the
LabelCounts value equals the sum over the video's tracks carrying that
label of `max 1 (expanded interval length)` — i.e. the per-track expanded
occurrences counted before any deduplication, except that a track whose
expanded interval is empty contributes the single null row its explode
produces instead of 0. -/
theorem c6_label_counts (rows : List FrameRow) (v l : String) (hl : l ≠ "Resting") :
    labelCountFor rows v l =
      ((rows.filter (fun t => t.video_id = v ∧ t.label = l)).map
        (fun t => max 1 (rowRange t).length)).sum := by
  unfold labelCountFor explodedFor
  rw [filter_label_flatMap, sum_if_filter]
  congr 1
  unfold nonResting
  rw [List.filter_filter]
  congr 1
  apply List.filter_congr
  intro t _
  by_cases h1 : t.video_id = v <;> by_cases h2 : t.label = l
  · subst h2
    simp [h1, hl]
  · simp [h1, h2]
  · simp [h1, h2]
  · simp [h1, h2]

/-- C6 witness: for the track `(v, A, [1,3), fc 10)` the count for label
A is the expanded length 2. -/
theorem c6_label_counts_witness :
    labelCountFor [FrameRow.mk "v" "A" 1 3 10] "v" "A" =
      ((([FrameRow.mk "v" "A" 1 3 10] : List FrameRow).filter
          (fun t => t.video_id = "v" ∧ t.label = "A")).map
        (fun t => max 1 (rowRange t).length)).sum :=
  c6_label_counts [FrameRow.mk "v" "A" 1 3 10] "v" "A" (by decide)

/-! ## Camera-partition lemmas -/

theorem filterMap_getElem_range {α : Type} (l : List α) :
    (List.range l.length).filterMap (fun i => l[i]?) = l := by
  induction l with
  | nil => simp
  | cons a l ih =>
    rw [List.length_cons, List.range_succ_eq_map]
    simp only [List.filterMap_cons, List.getElem?_cons_zero]
    rw [List.filterMap_map]
    have hcomp : ((fun i => (a :: l)[i]?) ∘ Nat.succ) = fun i => l[i]? := by
      funext i
      exact List.getElem?_cons_succ
    rw [hcomp, ih]

theorem filterMap_getElem_length {α : Type} (l : List α) :
    ∀ (ids : List ℕ), (∀ i ∈ ids, i < l.length) →
      (ids.filterMap (fun i => l[i]?)).length = ids.length := by
  intro ids
  induction ids with
  | nil => intro _; rfl
  | cons i ids ih =>
    intro h
    have hi : i < l.length := h i (List.mem_cons_self _ _)
    rw [List.filterMap_cons, List.getElem?_eq_getElem hi]
    simp only [List.length_cons]
    rw [ih (fun j hj => h j (List.mem_cons_of_mem _ hj))]

/-- The three index slices `[:a]`, `[a:a+b]`, `[a+b:]` of a permutation
of the camera indices select pairwise disjoint camera groups whose union
is the whole camera list, with the first two groups of sizes `a` and `b`,
provided `0 ≤ a`, `0 ≤ b` and `a + b ≤ n`. -/
theorem partition3_spec {α : Type} [DecidableEq α] (cams : List α) (hnd : cams.Nodup)
    (perm : List ℕ) (hperm : List.Perm perm (List.range cams.length))
    (a b : ℤ) (ha : 0 ≤ a) (hb : 0 ≤ b) (hab : a + b ≤ (cams.length : ℤ)) :
    List.Perm
      ((pySlice perm 0 a).filterMap (fun i => cams[i]?) ++
        ((pySlice perm a (a + b)).filterMap (fun i => cams[i]?) ++
          (pySlice perm (a + b) (cams.length : ℤ)).filterMap (fun i => cams[i]?)))
      cams ∧
    ((pySlice perm 0 a).filterMap (fun i => cams[i]?)).Disjoint
      ((pySlice perm a (a + b)).filterMap (fun i => cams[i]?)) ∧
    ((pySlice perm 0 a).filterMap (fun i => cams[i]?)).Disjoint
      ((pySlice perm (a + b) (cams.length : ℤ)).filterMap (fun i => cams[i]?)) ∧
    ((pySlice perm a (a + b)).filterMap (fun i => cams[i]?)).Disjoint
      ((pySlice perm (a + b) (cams.length : ℤ)).filterMap (fun i => cams[i]?)) ∧
    (((pySlice perm 0 a).filterMap (fun i => cams[i]?)).length : ℤ) = a ∧
    (((pySlice perm a (a + b)).filterMap (fun i => cams[i]?)).length : ℤ) = b := by
  have hlen : perm.length = cams.length := hperm.length_eq.trans (List.length_range _)
  have hmem : ∀ i ∈ perm, i < cams.length := fun i hi =>
    List.mem_range.mp (hperm.mem_iff.mp hi)
  have h0 : pyIdx perm.length 0 = 0 := by
    unfold pyIdx
    rw [if_neg (by omega)]
    omega
  have hA : pyIdx perm.length a = a.toNat := by
    unfold pyIdx
    rw [if_neg (by omega)]
    omega
  have hAB : pyIdx perm.length (a + b) = (a + b).toNat := by
    unfold pyIdx
    rw [if_neg (by omega)]
    omega
  have hN : pyIdx perm.length (cams.length : ℤ) = perm.length := by
    unfold pyIdx
    rw [if_neg (by omega)]
    omega
  have hslice1 : pySlice perm 0 a = perm.take a.toNat := by
    unfold pySlice
    rw [h0, hA, List.drop_zero]
  have hslice2 : pySlice perm a (a + b) = (perm.take (a + b).toNat).drop a.toNat := by
    unfold pySlice
    rw [hA, hAB]
  have hslice3 : pySlice perm (a + b) (cams.length : ℤ) = perm.drop (a + b).toNat := by
    unfold pySlice
    rw [hAB, hN, List.take_length]
  have hconcat : pySlice perm 0 a ++
      (pySlice perm a (a + b) ++ pySlice perm (a + b) (cams.length : ℤ)) = perm := by
    rw [hslice1, hslice2, hslice3]
    have h1 : perm.take a.toNat = (perm.take (a + b).toNat).take a.toNat := by
      rw [List.take_take, min_eq_left (by omega)]
    rw [h1, ← List.append_assoc, List.take_append_drop, List.take_append_drop]
  have hunion : (pySlice perm 0 a).filterMap (fun i => cams[i]?) ++
      ((pySlice perm a (a + b)).filterMap (fun i => cams[i]?) ++
        (pySlice perm (a + b) (cams.length : ℤ)).filterMap (fun i => cams[i]?)) =
      perm.filterMap (fun i => cams[i]?) := by
    rw [← List.filterMap_append, ← List.filterMap_append, hconcat]
  have hpermResult : List.Perm
      ((pySlice perm 0 a).filterMap (fun i => cams[i]?) ++
        ((pySlice perm a (a + b)).filterMap (fun i => cams[i]?) ++
          (pySlice perm (a + b) (cams.length : ℤ)).filterMap (fun i => cams[i]?)))
      cams := by
    rw [hunion]
    have h2 : List.Perm (perm.filterMap (fun i => cams[i]?))
        ((List.range cams.length).filterMap (fun i => cams[i]?)) :=
      hperm.filterMap _
    rw [filterMap_getElem_range] at h2
    exact h2
  have hndAll := hpermResult.nodup_iff.mpr hnd
  rw [List.nodup_append] at hndAll
  obtain ⟨-, hndVTe, hdisjT⟩ := hndAll
  rw [List.nodup_append] at hndVTe
  obtain ⟨-, -, hdisjV⟩ := hndVTe
  have hmemT : ∀ i ∈ pySlice perm 0 a, i < cams.length := by
    intro i hi
    rw [hslice1] at hi
    exact hmem i (List.mem_of_mem_take hi)
  have hmemV : ∀ i ∈ pySlice perm a (a + b), i < cams.length := by
    intro i hi
    rw [hslice2] at hi
    exact hmem i (List.mem_of_mem_take (List.mem_of_mem_drop hi))
  refine ⟨hpermResult, ?_, ?_, hdisjV, ?_, ?_⟩
  · intro x hx hv
    exact hdisjT hx (List.mem_append_left _ hv)
  · intro x hx hte
    exact hdisjT hx (List.mem_append_right _ hte)
  · rw [filterMap_getElem_length cams _ hmemT, hslice1, List.length_take]
    omega
  · rw [filterMap_getElem_length cams _ hmemV, hslice2, List.length_drop,
      List.length_take]
    omega

/-- C4 counterexample: with 3 cameras and the legitimate ratio
configuration `{train: 1/2, val: 1/2, test: 0}`, Python's
`round(1.5) = 2` makes `n_train + n_val = 4 > 3`, so the val slice
`indices[2:4]` holds a single camera while the claim requires
`round(val_ratio * camera_count) = 2`. -/
theorem c4_camera_partition_counterexample :
    ((cameraPartition
        [VideoRow.mk "v1" "c1" 10 1 "p1", VideoRow.mk "v2" "c2" 10 1 "p2",
         VideoRow.mk "v3" "c3" 10 1 "p3"] (RatioConfig.mk (1/2) (1/2) 0) 0).2.1.length : ℤ) ≠
      pyRound ((1/2 : ℚ) *
        ((distinctCameras
          [VideoRow.mk "v1" "c1" 10 1 "p1", VideoRow.mk "v2" "c2" 10 1 "p2",
           VideoRow.mk "v3" "c3" 10 1 "p3"]).length : ℕ)) := by
  with_unfolding_all decide

/-- C4 (amended): the train, val and test camera groups are pairwise
disjoint and their union is (a permutation of) the full set of distinct
cameras for every input and seed satisfying the rounding side condition
`0 ≤ n_train`, `0 ≤ n_val`, `n_train + n_val ≤ camera_count`; under that
condition `|train| = round(train_ratio * camera_count)` and
`|val| = round(val_ratio * camera_count)` (Python half-to-even `round`).
Without it (e.g. 3 cameras at ratios 1/2, 1/2) the slices truncate and
the size equations fail. -/
theorem c4_camera_partition (videos : List VideoRow) (ratio : RatioConfig) (seed : ℕ)
    (ha : 0 ≤ pyRound (ratio.train * ((distinctCameras videos).length : ℕ)))
    (hb : 0 ≤ pyRound (ratio.val * ((distinctCameras videos).length : ℕ)))
    (hab : pyRound (ratio.train * ((distinctCameras videos).length : ℕ)) +
             pyRound (ratio.val * ((distinctCameras videos).length : ℕ)) ≤
           ((distinctCameras videos).length : ℤ)) :
    List.Perm
      ((cameraPartition videos ratio seed).1 ++
        ((cameraPartition videos ratio seed).2.1 ++ (cameraPartition videos ratio seed).2.2))
      (distinctCameras videos) ∧
    (cameraPartition videos ratio seed).1.Disjoint (cameraPartition videos ratio seed).2.1 ∧
    (cameraPartition videos ratio seed).1.Disjoint (cameraPartition videos ratio seed).2.2 ∧
    (cameraPartition videos ratio seed).2.1.Disjoint (cameraPartition videos ratio seed).2.2 ∧
    ((cameraPartition videos ratio seed).1.length : ℤ) =
      pyRound (ratio.train * ((distinctCameras videos).length : ℕ)) ∧
    ((cameraPartition videos ratio seed).2.1.length : ℤ) =
      pyRound (ratio.val * ((distinctCameras videos).length : ℕ)) :=
  partition3_spec (distinctCameras videos) (nodup_dedupList _)
    (npPermutation seed (distinctCameras videos).length)
    (npPermutation_perm seed (distinctCameras videos).length)
    (pyRound (ratio.train * ((distinctCameras videos).length : ℕ)))
    (pyRound (ratio.val * ((distinctCameras videos).length : ℕ)))
    ha hb hab

/-- C4 witness: 2 cameras at ratios 1/2, 1/2 satisfy the side condition
(`n_train = n_val = 1`), giving a clean 1/1/0 partition. -/
theorem c4_camera_partition_witness :
    List.Perm
      ((cameraPartition [VideoRow.mk "v1" "c1" 10 1 "p1", VideoRow.mk "v2" "c2" 10 1 "p2"]
          (RatioConfig.mk (1/2) (1/2) 0) 0).1 ++
        ((cameraPartition [VideoRow.mk "v1" "c1" 10 1 "p1", VideoRow.mk "v2" "c2" 10 1 "p2"]
            (RatioConfig.mk (1/2) (1/2) 0) 0).2.1 ++
          (cameraPartition [VideoRow.mk "v1" "c1" 10 1 "p1", VideoRow.mk "v2" "c2" 10 1 "p2"]
            (RatioConfig.mk (1/2) (1/2) 0) 0).2.2))
      (distinctCameras [VideoRow.mk "v1" "c1" 10 1 "p1", VideoRow.mk "v2" "c2" 10 1 "p2"]) ∧
    (cameraPartition [VideoRow.mk "v1" "c1" 10 1 "p1", VideoRow.mk "v2" "c2" 10 1 "p2"]
        (RatioConfig.mk (1/2) (1/2) 0) 0).1.Disjoint
      (cameraPartition [VideoRow.mk "v1" "c1" 10 1 "p1", VideoRow.mk "v2" "c2" 10 1 "p2"]
        (RatioConfig.mk (1/2) (1/2) 0) 0).2.1 ∧
    (cameraPartition [VideoRow.mk "v1" "c1" 10 1 "p1", VideoRow.mk "v2" "c2" 10 1 "p2"]
        (RatioConfig.mk (1/2) (1/2) 0) 0).1.Disjoint
      (cameraPartition [VideoRow.mk "v1" "c1" 10 1 "p1", VideoRow.mk "v2" "c2" 10 1 "p2"]
        (RatioConfig.mk (1/2) (1/2) 0) 0).2.2 ∧
    (cameraPartition [VideoRow.mk "v1" "c1" 10 1 "p1", VideoRow.mk "v2" "c2" 10 1 "p2"]
        (RatioConfig.mk (1/2) (1/2) 0) 0).2.1.Disjoint
      (cameraPartition [VideoRow.mk "v1" "c1" 10 1 "p1", VideoRow.mk "v2" "c2" 10 1 "p2"]
        (RatioConfig.mk (1/2) (1/2) 0) 0).2.2 ∧
    ((cameraPartition [VideoRow.mk "v1" "c1" 10 1 "p1", VideoRow.mk "v2" "c2" 10 1 "p2"]
        (RatioConfig.mk (1/2) (1/2) 0) 0).1.length : ℤ) =
      pyRound ((RatioConfig.mk (1/2) (1/2) 0).train *
        ((distinctCameras [VideoRow.mk "v1" "c1" 10 1 "p1",
          VideoRow.mk "v2" "c2" 10 1 "p2"]).length : ℕ)) ∧
    ((cameraPartition [VideoRow.mk "v1" "c1" 10 1 "p1", VideoRow.mk "v2" "c2" 10 1 "p2"]
        (RatioConfig.mk (1/2) (1/2) 0) 0).2.1.length : ℤ) =
      pyRound ((RatioConfig.mk (1/2) (1/2) 0).val *
        ((distinctCameras [VideoRow.mk "v1" "c1" 10 1 "p1",
          VideoRow.mk "v2" "c2" 10 1 "p2"]).length : ℕ)) :=
  c4_camera_partition [VideoRow.mk "v1" "c1" 10 1 "p1", VideoRow.mk "v2" "c2" 10 1 "p2"]
    (RatioConfig.mk (1/2) (1/2) 0) 0 (by with_unfolding_all decide)
    (by with_unfolding_all decide) (by with_unfolding_all decide)

/-! ## Output-column claims -/

/-- C7 counterexample: with a single label A, the persisted table's
columns are `video_id, target_frames, A, added_rests, video_path, fps` —
the unnested label-count column and `added_rests` survive the drop, so
the table does not have exactly the four claimed columns. -/
theorem c7_output_columns_counterexample :
    lookupCols ["A"] ≠ ["video_id", "target_frames", "video_path", "fps"] := by
  decide

/-- C7 (amended): for labels that do not collide with the pipeline's own
column names, the persisted table has exactly the columns `video_id`,
`target_frames`, one count column per label, `added_rests`, `video_path`
and `fps`: the temporaries named in the final `.drop(...)` are removed,
but the unnested LabelCounts columns and `added_rests` are kept. -/
theorem c7_output_columns (labels : List String)
    (h : ∀ l ∈ labels, l ∉ (["video_id", "target_frames", "framesCount", "max_count",
        "all_frames", "candidate_frames", "sampled_additional_frames", "added_rests",
        "video_path", "fps"] : List String)) :
    lookupCols labels =
      "video_id" :: "target_frames" :: (labels ++ ["added_rests", "video_path", "fps"]) := by
  have hne : ∀ nm ∈ (["framesCount", "max_count", "all_frames",
      "candidate_frames", "sampled_additional_frames", "added_rests"] : List String),
      nm ∉ labels := by
    intro nm hnm hmem
    apply h nm hmem
    simp only [List.mem_cons, List.not_mem_nil, or_false] at hnm
    rcases hnm with rfl | rfl | rfl | rfl | rfl | rfl <;> simp
  have hS : subsampleOutCols = ["video_id", "target_frames", "label_counts",
      "framesCount"] := by decide
  have hun : unnestCols subsampleOutCols "label_counts" labels =
      "video_id" :: "target_frames" :: (labels ++ ["framesCount"]) := by
    rw [hS]
    simp [unnestCols, List.flatMap_cons, List.flatMap_nil]
  have hstep : ∀ (cur : List String) (nm : String),
      nm ∈ (["framesCount", "max_count", "all_frames", "candidate_frames",
        "sampled_additional_frames", "added_rests"] : List String) →
      nm ∉ ("video_id" :: "target_frames" :: (labels ++ cur)) →
      withColumnCols ("video_id" :: "target_frames" :: (labels ++ cur)) nm =
        "video_id" :: "target_frames" :: (labels ++ (cur ++ [nm])) := by
    intro cur nm _ hnotin
    unfold withColumnCols
    rw [if_neg hnotin]
    simp
  have hnm1 : "max_count" ∉ ("video_id" :: "target_frames" ::
      (labels ++ ["framesCount"])) := by
    simp only [List.mem_cons, List.mem_append, List.not_mem_nil, or_false]
    push_neg
    exact ⟨by decide, by decide, hne "max_count" (by simp), by decide⟩
  have hnm2 : "all_frames" ∉ ("video_id" :: "target_frames" ::
      (labels ++ ["framesCount", "max_count"])) := by
    simp only [List.mem_cons, List.mem_append, List.not_mem_nil, or_false]
    push_neg
    exact ⟨by decide, by decide, hne "all_frames" (by simp), by decide, by decide⟩
  have hnm3 : "candidate_frames" ∉ ("video_id" :: "target_frames" ::
      (labels ++ ["framesCount", "max_count", "all_frames"])) := by
    simp only [List.mem_cons, List.mem_append, List.not_mem_nil, or_false]
    push_neg
    exact ⟨by decide, by decide, hne "candidate_frames" (by simp), by decide, by decide,
      by decide⟩
  have hnm4 : "sampled_additional_frames" ∉ ("video_id" :: "target_frames" ::
      (labels ++ ["framesCount", "max_count", "all_frames", "candidate_frames"])) := by
    simp only [List.mem_cons, List.mem_append, List.not_mem_nil, or_false]
    push_neg
    exact ⟨by decide, by decide, hne "sampled_additional_frames" (by simp), by decide,
      by decide, by decide, by decide⟩
  have hnm5 : "added_rests" ∉ ("video_id" :: "target_frames" ::
      (labels ++ ["framesCount", "max_count", "all_frames", "candidate_frames",
        "sampled_additional_frames"])) := by
    simp only [List.mem_cons, List.mem_append, List.not_mem_nil, or_false]
    push_neg
    exact ⟨by decide, by decide, hne "added_rests" (by simp), by decide, by decide,
      by decide, by decide, by decide⟩
  have hdrop : dropCols ("video_id" :: "target_frames" ::
        (labels ++ ["framesCount", "max_count", "all_frames", "candidate_frames",
          "sampled_additional_frames", "added_rests"]))
        ["max_count", "all_frames", "candidate_frames", "sampled_additional_frames",
         "framesCount"] =
      "video_id" :: "target_frames" :: (labels ++ ["added_rests"]) := by
    unfold dropCols
    have hsplit : ("video_id" :: "target_frames" ::
        (labels ++ ["framesCount", "max_count", "all_frames", "candidate_frames",
          "sampled_additional_frames", "added_rests"])) =
        (["video_id", "target_frames"] ++ labels) ++ ["framesCount", "max_count",
          "all_frames", "candidate_frames", "sampled_additional_frames",
          "added_rests"] := by simp
    rw [hsplit, List.filter_append, List.filter_append]
    have e1 : (["video_id", "target_frames"] : List String).filter
        (fun c => ¬ c ∈ (["max_count", "all_frames", "candidate_frames",
          "sampled_additional_frames", "framesCount"] : List String)) =
        ["video_id", "target_frames"] := by decide
    have e2 : (["framesCount", "max_count", "all_frames", "candidate_frames",
        "sampled_additional_frames", "added_rests"] : List String).filter
        (fun c => ¬ c ∈ (["max_count", "all_frames", "candidate_frames",
          "sampled_additional_frames", "framesCount"] : List String)) =
        ["added_rests"] := by decide
    have e3 : labels.filter
        (fun c => ¬ c ∈ (["max_count", "all_frames", "candidate_frames",
          "sampled_additional_frames", "framesCount"] : List String)) = labels := by
      rw [List.filter_eq_self]
      intro a ha
      simp only [List.mem_cons, List.not_mem_nil, or_false, decide_not,
        Bool.not_eq_true', decide_eq_false_iff_not]
      intro hor
      rcases hor with rfl | rfl | rfl | rfl | rfl
      · exact hne "max_count" (by simp) ha
      · exact hne "all_frames" (by simp) ha
      · exact hne "candidate_frames" (by simp) ha
      · exact hne "sampled_additional_frames" (by simp) ha
      · exact hne "framesCount" (by simp) ha
    rw [e1, e2, e3]
    simp
  have hR : sampleRestingOutCols labels =
      "video_id" :: "target_frames" :: (labels ++ ["added_rests"]) := by
    unfold sampleRestingOutCols
    rw [hun, hstep _ _ (by simp) hnm1]
    simp only [List.cons_append, List.nil_append]
    rw [hstep _ _ (by simp) hnm2]
    simp only [List.cons_append, List.nil_append]
    rw [hstep _ _ (by simp) hnm3]
    simp only [List.cons_append, List.nil_append]
    rw [hstep _ _ (by simp) hnm4]
    simp only [List.cons_append, List.nil_append]
    rw [hstep _ _ (by simp) hnm5]
    simp only [List.cons_append, List.nil_append]
    exact hdrop
  unfold lookupCols joinColsInner
  rw [hR]
  have e4 : (["video_id", "video_path", "fps"] : List String).filter
      (fun c => c ≠ "video_id") = ["video_path", "fps"] := by decide
  rw [e4]
  simp

/-- C7 witness: with the single label A the output table's columns are
`video_id, target_frames, A, added_rests, video_path, fps`. -/
theorem c7_output_columns_witness :
    lookupCols ["A"] =
      "video_id" :: "target_frames" :: (["A"] ++ ["added_rests", "video_path", "fps"]) :=
  c7_output_columns ["A"] (by decide)

/-! ## Determinism of the whole pipeline -/

/-- C8: the pipeline is a pure function of the input tables, the ratio
configuration and the seed (all randomness is derived from the seed): two
runs with identical inputs produce identical output tables for every
split. -/
theorem c8_determinism (videos1 videos2 : List VideoRow) (tracks1 tracks2 : List TrackRow)
    (ratio1 ratio2 : RatioConfig) (seed1 seed2 : ℕ)
    (hv : videos1 = videos2) (ht : tracks1 = tracks2) (hr : ratio1 = ratio2)
    (hs : seed1 = seed2) :
    split_camera_data videos1 tracks1 ratio1 seed1 =
      split_camera_data videos2 tracks2 ratio2 seed2 := by
  subst hv
  subst ht
  subst hr
  subst hs
  rfl

/-- C8 witness: two runs on one concrete input agree. -/
theorem c8_determinism_witness :
    split_camera_data [VideoRow.mk "v1" "c1" 10 1 "p1"] [TrackRow.mk "v1" "A" 1 3]
        (RatioConfig.mk 1 0 0) 42 =
      split_camera_data [VideoRow.mk "v1" "c1" 10 1 "p1"] [TrackRow.mk "v1" "A" 1 3]
        (RatioConfig.mk 1 0 0) 42 :=
  c8_determinism _ _ _ _ _ _ _ _ rfl rfl rfl rfl

/-! ## Videos without track rows -/

theorem attachVideo_video_id {sv : List VideoRow} {r : RestRow} {out : LookupRow}
    (h : attachVideo sv r = some out) : out.video_id = r.video_id := by
  unfold attachVideo at h
  cases hf : sv.find? (fun v => v.video_id = r.video_id) with
  | none => rw [hf] at h; simp at h
  | some v =>
    rw [hf] at h
    simp only [Option.map_some', Option.some.injEq] at h
    rw [← h]

theorem subsample_row_video_id {rows : List FrameRow} {out : List SampleRow} {s : SampleRow}
    (hsub : subsample_frames rows = some out) (h : s ∈ out) :
    ∃ fr ∈ rows, fr.label ≠ "Resting" ∧ fr.video_id = s.video_id := by
  unfold subsample_frames at hsub
  split at hsub
  · exact absurd hsub (by simp)
  · simp only [Option.some.injEq] at hsub
    subst hsub
    obtain ⟨v, hv, rfl⟩ := List.mem_map.mp h
    unfold videoList at hv
    rw [mem_dedupList] at hv
    obtain ⟨fr, hfr, hEq⟩ := List.mem_map.mp hv
    unfold nonResting at hfr
    rw [List.mem_filter] at hfr
    obtain ⟨hmem, hlbl⟩ := hfr
    refine ⟨fr, hmem, ?_, hEq⟩
    simpa using hlbl

theorem joinFrames_mem {tracks : List TrackRow} {sv : List VideoRow} {fr : FrameRow}
    (h : fr ∈ joinFrames tracks sv) :
    ∃ t ∈ tracks, t.video_id = fr.video_id ∧ t.label = fr.label := by
  unfold joinFrames at h
  rw [List.mem_filterMap] at h
  obtain ⟨t, ht, hmap⟩ := h
  cases hf : sv.find? (fun v => v.video_id = t.video_id) with
  | none => rw [hf] at hmap; simp at hmap
  | some v =>
    rw [hf] at hmap
    simp only [Option.map_some', Option.some.injEq] at hmap
    exact ⟨t, ht, by rw [← hmap], by rw [← hmap]⟩

/-- Every row a split's table holds comes from a non-"Resting" track of
that video: a video with no such track has no output row. -/
theorem process_split_video_ids {videos : List VideoRow} {tracks : List TrackRow}
    {cams : List String} {seed : ℕ} {out : List LookupRow}
    (h : process_split videos tracks cams seed = some out) :
    ∀ r ∈ out, ∃ t ∈ tracks, t.video_id = r.video_id ∧ t.label ≠ "Resting" := by
  unfold process_split at h
  cases hsub : subsample_frames (joinFrames tracks (splitVideos videos cams)) with
  | none => rw [hsub] at h; simp at h
  | some sub =>
    rw [hsub] at h
    dsimp only at h
    cases hs : sample_resting_frames
        (allLabels (joinFrames tracks (splitVideos videos cams))) sub seed with
    | none => rw [hs] at h; simp at h
    | some rest =>
      rw [hs] at h
      simp only [Option.some.injEq] at h
      subst h
      intro r hr
      rw [List.mem_filterMap] at hr
      obtain ⟨rr, hrr, hattach⟩ := hr
      have hid1 := attachVideo_video_id hattach
      unfold sample_resting_frames at hs
      split at hs
      · exact absurd hs (by simp)
      obtain ⟨srow, hsrow, hfrow⟩ := optionMapList_mem hs rr hrr
      have hid2 : rr.video_id = srow.video_id := by
        obtain ⟨smp, -, hout⟩ := sample_resting_row_spec hfrow
        rw [hout]
      obtain ⟨fr, hfr, hlbl, hid3⟩ := subsample_row_video_id hsub hsrow
      obtain ⟨t, ht, hid4, hlbl2⟩ := joinFrames_mem hfr
      refine ⟨t, ht, ?_, ?_⟩
      · rw [hid4, hid3, ← hid2, ← hid1]
      · intro hres
        exact hlbl (hlbl2 ▸ hres)

/-- A split whose joined frame table has no non-"Resting" rows makes
`subsample_frames` raise (`pl.struct([])` over the empty label set), so
the split — and with it the whole run — fails. -/
theorem process_split_eq_none {videos : List VideoRow} {tracks : List TrackRow}
    {cams : List String} {seed : ℕ}
    (h : nonResting (joinFrames tracks (splitVideos videos cams)) = []) :
    process_split videos tracks cams seed = none := by
  unfold process_split
  have hsub : subsample_frames (joinFrames tracks (splitVideos videos cams)) = none := by
    unfold subsample_frames
    rw [if_pos h]
  rw [hsub]

/-- C9 counterexample, refuting both parts of the claim.  First input
(both splits carry a labeled track): the run completes, but the
track-less video `v2` is absent from every output table instead of
appearing with an empty FrameTargetSet.  Second input: the track-less
`v2` is assigned to a materialized split (val, under ratio
`{train: 1, val: 0}`) that ends up with no non-"Resting" track rows, and
the run fails (`pl.struct([])` in `subsample_frames`) instead of
completing without a fatal error. -/
theorem c9_missing_video_counterexample :
    ((split_camera_data
        [VideoRow.mk "v1" "c1" 10 1 "p1", VideoRow.mk "v2" "c1" 12 2 "p2",
         VideoRow.mk "v3" "c2" 6 1 "p3"]
        [TrackRow.mk "v1" "A" 1 3, TrackRow.mk "v3" "B" 1 2]
        (RatioConfig.mk (1/2) (1/2) 0) 0).isSome = true ∧
      ∀ p ∈ (split_camera_data
        [VideoRow.mk "v1" "c1" 10 1 "p1", VideoRow.mk "v2" "c1" 12 2 "p2",
         VideoRow.mk "v3" "c2" 6 1 "p3"]
        [TrackRow.mk "v1" "A" 1 3, TrackRow.mk "v3" "B" 1 2]
        (RatioConfig.mk (1/2) (1/2) 0) 0).getD [],
        ∀ r ∈ p.2, r.video_id ≠ "v2") ∧
    split_camera_data [VideoRow.mk "v1" "c1" 10 1 "p1", VideoRow.mk "v2" "c1" 12 2 "p2"]
      [TrackRow.mk "v1" "A" 1 3] (RatioConfig.mk 1 0 0) 5 = none := by
  with_unfolding_all decide

/-- C9 (amended): a video with no matching non-"Resting" track row is
absent from every emitted split table whenever the run completes (it is
not carried through with an empty FrameTargetSet); and completion is not
guaranteed — when either materialized split's joined frame table has no
non-"Resting" rows at all (in particular when a track-less video's split
has no labeled tracks), `subsample_frames` raises over the empty label
set and the run fails. -/
theorem c9_missing_video (videos : List VideoRow) (tracks : List TrackRow)
    (ratio : RatioConfig) (seed : ℕ) (vid : String)
    (hno : ∀ t ∈ tracks, t.video_id = vid → t.label = "Resting") :
    (∀ out, split_camera_data videos tracks ratio seed = some out →
       ∀ p ∈ out, ∀ r ∈ p.2, r.video_id ≠ vid) ∧
    (nonResting (joinFrames tracks (splitVideos videos
        (cameraPartition videos ratio seed).1)) = [] →
      split_camera_data videos tracks ratio seed = none) ∧
    (nonResting (joinFrames tracks (splitVideos videos
        (cameraPartition videos ratio seed).2.1)) = [] →
      split_camera_data videos tracks ratio seed = none) := by
  refine ⟨?_, ?_, ?_⟩
  · intro out hrun
    unfold split_camera_data at hrun
    cases h1 : process_split videos tracks (cameraPartition videos ratio seed).1 seed with
    | none => rw [h1] at hrun; simp at hrun
    | some tt =>
      cases h2 : process_split videos tracks (cameraPartition videos ratio seed).2.1 seed with
      | none => rw [h1, h2] at hrun; simp at hrun
      | some vv =>
        rw [h1, h2] at hrun
        simp only [Option.some.injEq] at hrun
        subst hrun
        intro p hp r hr heq
        rcases List.mem_cons.mp hp with rfl | hp2
        · obtain ⟨t, ht, hid, hlbl⟩ := process_split_video_ids h1 r hr
          exact hlbl (hno t ht (by rw [hid, heq]))
        · rcases List.mem_cons.mp hp2 with rfl | hp3
          · obtain ⟨t, ht, hid, hlbl⟩ := process_split_video_ids h2 r hr
            exact hlbl (hno t ht (by rw [hid, heq]))
          · simp at hp3
  · intro hempty
    unfold split_camera_data
    rw [process_split_eq_none hempty]
  · intro hempty
    unfold split_camera_data
    rw [process_split_eq_none hempty]
    cases process_split videos tracks (cameraPartition videos ratio seed).1 seed <;> rfl

/-- C9 witness: in the completing concrete run (both splits hold a
labeled track), the row the train table holds belongs to `v1`, not to
the track-less `v2`, through the amended theorem. -/
theorem c9_missing_video_witness :
    (LookupRow.mk "v1" [some 1, some 2, some 3, some 4] [("A", 2)] 2 "p1" 10).video_id ≠
      "v2" :=
  (c9_missing_video
    [VideoRow.mk "v1" "c1" 10 1 "p1", VideoRow.mk "v2" "c1" 12 2 "p2",
     VideoRow.mk "v3" "c2" 6 1 "p3"]
    [TrackRow.mk "v1" "A" 1 3, TrackRow.mk "v3" "B" 1 2]
    (RatioConfig.mk (1/2) (1/2) 0) 0 "v2" (by decide)).1
    [("train", [LookupRow.mk "v1" [some 1, some 2, some 3, some 4] [("A", 2)] 2 "p1" 10]),
     ("val", [LookupRow.mk "v3" [some 1, some 2] [("B", 1)] 1 "p3" 6])]
    (by with_unfolding_all decide)
    ("train", [LookupRow.mk "v1" [some 1, some 2, some 3, some 4] [("A", 2)] 2 "p1" 10])
    (by decide)
    (LookupRow.mk "v1" [some 1, some 2, some 3, some 4] [("A", 2)] 2 "p1" 10)
    (by decide)

end BirdCV
